import Mathlib

/-!
Shallow embedding of the GFS invoice extraction engine
(`scripts/invoice_parser.py`) and of the product-catalog upsert
(`scripts/db_manager.py`), together with theorems settling the frozen
claims about the natural-language specification.

Modelling conventions:
* Python strings are Lean `String`s; token lists are `List String`.
* Monetary values: every price-shaped token has the form `\d+\.\d{2}`,
  so its value times 100 is a natural number.  Prices are modelled in
  integer cents (`Nat`); `float(p)` on such a token is modelled by
  `priceCents`.  Distinct two-decimal literals in the invoice range map
  to distinct floats, so equality/inequality of cents is faithful.
* Python's `re` class `\d` is modelled as ASCII digits (`Char.isDigit`),
  matching the spec's reading of the patterns; `\s` is modelled by
  `Char.isWhitespace`.  Tokens produced by `str.split()` contain no
  whitespace, so the `$` end-anchor subtlety of Python regexes cannot
  arise on tokens.
* `int(s)` on a whitespace-free token is modelled by `parseIntPy`
  (optional sign followed by one or more ASCII digits).
-/

/-- Digits of a token folded into a natural number (ASCII). -/
def digitsToNat (cs : List Char) : Nat :=
  cs.foldl (fun a d => a * 10 + (d.toNat - 48)) 0

/-- Model of `re.match(r'^\d+\.\d{2}$', p)`: one or more digits, a dot,
exactly two digits. -/
def isPriceShaped (s : String) : Bool :=
  let ip := s.data.takeWhile Char.isDigit
  let rest := s.data.dropWhile Char.isDigit
  !ip.isEmpty &&
    match rest with
    | '.' :: f => decide (f.length = 2) && f.all Char.isDigit
    | _ => false

/-- Value of a price-shaped token in integer cents, modelling `float(p)`. -/
def priceCents (s : String) : Nat :=
  let ip := s.data.takeWhile Char.isDigit
  let f := (s.data.dropWhile Char.isDigit).drop 1
  digitsToNat ip * 100 + digitsToNat f

/-- Model of `re.match(r'^\d{6}$', s)`: exactly six ASCII digits. -/
def isSixDigits (s : String) : Bool :=
  decide (s.data.length = 6) && s.data.all Char.isDigit

/-- Model of Python `int(s)` on a whitespace-free token: an optional
single sign followed by one or more ASCII digits; `none` models
`ValueError`. -/
def parseIntPy (s : String) : Option Int :=
  let core : List Char → Bool → Option Int := fun ds neg =>
    if !ds.isEmpty && ds.all Char.isDigit then
      some (if neg then -(digitsToNat ds : Int) else (digitsToNat ds : Int))
    else none
  match s.data with
  | [] => none
  | c :: rest =>
    if c = '-' then core rest true
    else if c = '+' then core rest false
    else core (c :: rest) false

/-- Tokenizer: model of `line.strip().split()` — split on whitespace
runs, discarding empty tokens, preserving order. -/
def tokenizeChars : List Char → List Char → List String
  | [], cur => if cur.isEmpty then [] else [String.mk cur.reverse]
  | c :: rest, cur =>
    if c.isWhitespace then
      if cur.isEmpty then tokenizeChars rest []
      else String.mk cur.reverse :: tokenizeChars rest []
    else tokenizeChars rest (c :: cur)

/-- Tokenize one raw line. -/
def tokenize (line : String) : List String :=
  tokenizeChars line.data []

/-- Model of Python `str.strip()`. -/
def pyStrip (s : String) : String :=
  String.mk (((s.data.dropWhile Char.isWhitespace).reverse.dropWhile Char.isWhitespace).reverse)

/-- Model of `' '.join(l)`. -/
def joinSpace : List String → String
  | [] => ""
  | [s] => s
  | s :: rest => s ++ " " ++ joinSpace rest

/-- The Category Registry (`CATEGORY_MAP` in `invoice_parser.py`). -/
def CATEGORY_MAP : List (String × String) :=
  [("PR", "Produce"), ("GR", "Grocery"), ("FR", "Frozen"), ("DY", "Dairy"),
   ("BV", "Beverage"), ("CN", "Canned"), ("PA", "Paper"),
   ("CH", "Chemical/Cleaning"), ("EQ", "Equipment"), ("PU", "Packaging/Supply")]

/-- Category-registry lookup (`CATEGORY_MAP.get` / `in CATEGORY_MAP`). -/
def lookupCat (s : String) : Option String :=
  List.lookup s CATEGORY_MAP

/-- A token is a category code iff it is a key of the registry. -/
def isCat (s : String) : Bool :=
  (lookupCat s).isSome

/-- The Brand Recognizer (`KNOWN_BRANDS` in `invoice_parser.py`).
Apostrophes in the Python set literal are written as `\x27`. -/
def KNOWN_BRANDS : List String :=
  ["Markon", "Ready-", "Stacy\x27", "Annie\x27", "Nutri-", "Betty", "Zee Ze",
   "Cool C", "Kellog", "Corn P", "Ruffle", "Pepper", "Marzet", "Horizo",
   "Gordon", "Packer", "Tru Fru", "Amafru", "Ken\x27s", "G.S."]

/-- Price scan loop of `extract_price_fields`: iterate the reversed
token list; a price-shaped token is prepended to the accumulator; a
non-matching token stops the scan once at least one price was found and
is skipped otherwise. -/
def scanPrices : List String → List Nat → List Nat
  | [], acc => acc
  | p :: rest, acc =>
    if isPriceShaped p then scanPrices rest (priceCents p :: acc)
    else if acc.isEmpty then scanPrices rest acc
    else acc

/-- Recovered price tokens (in cents, original left-to-right order). -/
def extract_prices (parts : List String) : List Nat :=
  scanPrices parts.reverse []

/-- `extract_price_fields`: result is `(invoice_value, unit_price,
extended_price)` chosen from the recovered prices by count. -/
def extract_price_fields (parts : List String) : Nat × Nat × Nat :=
  match (extract_prices parts).reverse with
  | a :: b :: c :: _ => (c, b, a)
  | [a, b] => (0, b, a)
  | [a] => (0, a, a)
  | [] => (0, 0, 0)

/-- Model of Python `range(start, stop, -1)`: `start, start-1, ...,
stop+1` (empty when `start <= stop`). -/
def rangeDownAux : Nat → Int → List Int
  | 0, _ => []
  | n + 1, start => start :: rangeDownAux n (start - 1)

/-- Descending integer range as used by the category-locator loop. -/
def rangeDown (start stop : Int) : List Int :=
  rangeDownAux (start - stop).toNat start

/-- Category Locator: `for i in range(len(parts)-4, max(4, len(parts)-10), -1)`,
returning the first (i.e. highest-index) token in the window that is a
registry key, with its index. -/
def findCategory (parts : List String) : Option (String × Nat) :=
  (rangeDown ((parts.length : Int) - 4) (max 4 ((parts.length : Int) - 10))).findSome?
    (fun i =>
      if 0 ≤ i ∧ isCat (parts.getD i.toNat "") = true then
        some (parts.getD i.toNat "", i.toNat)
      else none)

/-- Pack-size / unit-word test of the Field Segmenter:
`'x' in part or part in ['EA','LB','OZ','FOZ','CO','CS']`. -/
def isPackTok (p : String) : Bool :=
  p.data.contains 'x' || ["EA", "LB", "OZ", "FOZ", "CO", "CS"].contains p

/-- Pack-size boundary: the loop sets `pack_end = i + 1` for every
matching token, so the final value is one past the last match (0 when
none matches). -/
def packEnd (middle : List String) : Nat :=
  (middle.enum.foldl (fun acc iv => if isPackTok iv.2 then iv.1 + 1 else acc) 0)

/-- Field Segmenter: split the middle region into
`(pack_size, brand, description)` exactly as the code does. -/
def segmentMiddle (middle : List String) : String × String × String :=
  if middle.isEmpty then ("", "", "")
  else
    let pe := packEnd middle
    let pack_size := joinSpace (middle.take pe)
    match middle.drop pe with
    | [] => (pack_size, "", "")
    | r0 :: rest =>
      if KNOWN_BRANDS.contains r0 || decide (r0.data.length < 8) then
        (pack_size, r0, joinSpace rest)
      else
        (pack_size, "", joinSpace (r0 :: rest))

/-- The parsed line-item record (the dict built by `parse_line_item`). -/
structure LineItem where
  item_code : String
  quantity_ordered : Int
  quantity_shipped : Int
  unit : String
  pack_size : String
  brand : String
  description : String
  category_code : String
  category_name : String
  invoice_value : Nat
  unit_price : Nat
  extended_price : Nat
  raw_line : String
deriving Repr, DecidableEq

/-- Body of `parse_line_item` after tokenization: `raw` is the stripped
line kept as `raw_line`, `parts` its tokens. -/
def parse_tokens (raw : String) (parts : List String) : Option LineItem :=
  if parts.length < 8 then none
  else if !isSixDigits (parts.headD "") then none
  else
    let item_code := parts.headD ""
    let prices := extract_price_fields parts
    match findCategory parts with
    | none => none
    | some (category, category_idx) =>
      match parseIntPy (parts.getD 1 ""), parseIntPy (parts.getD 2 "") with
      | some qty_ordered, some qty_shipped =>
        let unit := if 3 < parts.length then parts.getD 3 "" else "CS"
        let middle_parts := (parts.take category_idx).drop 4
        let seg := segmentMiddle middle_parts
        some
          { item_code := item_code
            quantity_ordered := qty_ordered
            quantity_shipped := qty_shipped
            unit := unit
            pack_size := seg.1
            brand := seg.2.1
            description := seg.2.2
            category_code := category
            category_name := (lookupCat category).getD category
            invoice_value := prices.1
            unit_price := prices.2.1
            extended_price := prices.2.2
            raw_line := raw }
      | _, _ => none

/-- `parse_line_item(line)`: tokenize the stripped line and parse. -/
def parse_line_item (line : String) : Option LineItem :=
  parse_tokens (pyStrip line) (tokenize line)

example : extract_price_fields ["PR", "0.00", "12.50", "125.00"] = (0, 1250, 12500) := by decide

example : tokenize "  123456  10 x " = ["123456", "10", "x"] := by decide

/-! ## Lemmas about the price scan -/

/-- Once the accumulator is non-empty the scan collects exactly the
leading run of price-shaped tokens and then stops. -/
theorem scanPrices_nonempty (l : List String) (acc : List Nat) (h : acc ≠ []) :
    scanPrices l acc = ((l.takeWhile isPriceShaped).map priceCents).reverse ++ acc := by
  induction l generalizing acc with
  | nil => simp [scanPrices]
  | cons p rest ih =>
    by_cases hp : isPriceShaped p
    · rw [scanPrices, if_pos hp, ih (priceCents p :: acc) (by simp)]
      simp [List.takeWhile_cons_of_pos hp]
    · rw [scanPrices, if_neg hp]
      have : acc.isEmpty = false := by simpa [List.isEmpty_iff] using h
      rw [this]
      simp [List.takeWhile_cons_of_neg hp]

/-- With an empty accumulator the scan first skips the leading
non-price tokens, then collects the following run of price tokens. -/
theorem scanPrices_empty (l : List String) :
    scanPrices l [] =
      (((l.dropWhile (fun p => !isPriceShaped p)).takeWhile isPriceShaped).map priceCents).reverse := by
  induction l with
  | nil => simp [scanPrices]
  | cons p rest ih =>
    by_cases hp : isPriceShaped p
    · rw [scanPrices, if_pos hp, scanPrices_nonempty rest [priceCents p] (by simp)]
      rw [List.dropWhile_cons_of_neg (by simp [hp])]
      simp [List.takeWhile_cons_of_pos hp]
    · rw [scanPrices, if_neg hp]
      simp only [List.isEmpty_nil, if_true]
      rw [ih, List.dropWhile_cons_of_pos (by simp [hp])]

/-! ## C1: price-field result policy by count of recovered tokens -/

/-- C1. For every token sequence, the result of the Price Field
Extractor is determined by the count `k` of recovered price-shaped
tokens: for `k >= 3` the last three recovered values, in original
left-to-right order, become (invoice_value, unit_price,
extended_price); for `k = 2` invoice_value is 0 and the two values
become (unit_price, extended_price); for `k = 1` invoice_value is 0 and
unit_price and extended_price both equal the single value; for `k = 0`
all three fields are 0. -/
theorem extract_price_fields_policy (parts : List String) :
    (∀ l a b c, extract_prices parts = l ++ [a, b, c] →
      extract_price_fields parts = (a, b, c)) ∧
    (∀ a b, extract_prices parts = [a, b] →
      extract_price_fields parts = (0, a, b)) ∧
    (∀ a, extract_prices parts = [a] →
      extract_price_fields parts = (0, a, a)) ∧
    (extract_prices parts = [] → extract_price_fields parts = (0, 0, 0)) := by
  refine ⟨?_, ?_, ?_, ?_⟩
  · intro l a b c h
    simp [extract_price_fields, h, List.reverse_append]
  · intro a b h
    simp [extract_price_fields, h]
  · intro a h
    simp [extract_price_fields, h]
  · intro h
    simp [extract_price_fields, h]

/-- Witness for C1: the four cases of the policy at concrete inputs. -/
theorem extract_price_fields_policy_witness :
    extract_price_fields ["9.99", "0.25", "12.50", "125.00"] = (25, 1250, 12500) ∧
    extract_price_fields ["PR", "12.50", "125.00"] = (0, 1250, 12500) ∧
    extract_price_fields ["PR", "7.00"] = (0, 700, 700) ∧
    extract_price_fields ["PR", "XY"] = (0, 0, 0) :=
  ⟨(extract_price_fields_policy ["9.99", "0.25", "12.50", "125.00"]).1
      [999] 25 1250 12500 (by decide),
   (extract_price_fields_policy ["PR", "12.50", "125.00"]).2.1 1250 12500 (by decide),
   (extract_price_fields_policy ["PR", "7.00"]).2.2.1 700 (by decide),
   (extract_price_fields_policy ["PR", "XY"]).2.2.2 (by decide)⟩

/-! ## C3: which tokens the price scan recovers -/

/-- Counterexample for C3: in `["1.23", "XYZ"]` the final token is not
price-shaped, yet one price is recovered (the scan skips trailing
non-price tokens before collecting), so the claimed "zero prices are
recovered when the final token is not price-shaped" is false. -/
theorem extract_prices_trailing_cex :
    ["1.23", "XYZ"].getLast? = some "XYZ" ∧
    isPriceShaped "XYZ" = false ∧
    extract_prices ["1.23", "XYZ"] = [123] ∧
    extract_price_fields ["1.23", "XYZ"] = (0, 123, 123) := by
  decide

/-- C3 (amended). The Price Field Extractor recovers exactly the
rightmost contiguous run of price-shaped tokens: scanning from the end
it first skips non-matching tokens, then collects the contiguous run of
price-shaped tokens, and stops at the first non-matching token once at
least one match has been collected; price-shaped tokens earlier in the
line are never collected, and if no token at all is price-shaped (in
particular on an all-text tail) zero prices are recovered. -/
theorem extract_prices_rightmost_run (parts : List String) :
    extract_prices parts =
      ((((parts.reverse.dropWhile (fun p => !isPriceShaped p)).takeWhile
          isPriceShaped).map priceCents).reverse) := by
  unfold extract_prices
  exact scanPrices_empty parts.reverse

/-! ## C5: the worked end-to-end example -/

/-- C5. Parsing the line whose tokens are
`["123456","10","10","CS","6x10","LB","Markon","Fresh","Broccoli","PR","0.00","12.50","125.00"]`
yields exactly the record stated in the spec (prices in cents:
0.00 = 0, 12.50 = 1250, 125.00 = 12500). -/
theorem parse_line_item_example :
    tokenize "123456 10 10 CS 6x10 LB Markon Fresh Broccoli PR 0.00 12.50 125.00" =
      ["123456", "10", "10", "CS", "6x10", "LB", "Markon", "Fresh", "Broccoli",
       "PR", "0.00", "12.50", "125.00"] ∧
    parse_line_item "123456 10 10 CS 6x10 LB Markon Fresh Broccoli PR 0.00 12.50 125.00" =
      some { item_code := "123456", quantity_ordered := 10, quantity_shipped := 10,
             unit := "CS", pack_size := "6x10 LB", brand := "Markon",
             description := "Fresh Broccoli", category_code := "PR",
             category_name := "Produce", invoice_value := 0, unit_price := 1250,
             extended_price := 12500,
             raw_line := "123456 10 10 CS 6x10 LB Markon Fresh Broccoli PR 0.00 12.50 125.00" } := by
  decide

/-! ## C2: when `parse` returns null -/

/-- Counterexample for C2: this line is accepted by the Line Classifier
(13 tokens, first token six digits) and the Category Locator finds "PR",
yet `parse` returns null, because the quantity token `"A"` fails integer
conversion — so "null exactly when the classifier rejects or no
category-code match" is false. -/
theorem parse_line_item_none_cases_cex :
    8 ≤ (tokenize "123456 A 10 CS 6x10 LB Markon Fresh Broccoli PR 0.00 12.50 125.00").length ∧
    isSixDigits ((tokenize "123456 A 10 CS 6x10 LB Markon Fresh Broccoli PR 0.00 12.50 125.00").headD "") = true ∧
    (findCategory (tokenize "123456 A 10 CS 6x10 LB Markon Fresh Broccoli PR 0.00 12.50 125.00")).isSome = true ∧
    parse_line_item "123456 A 10 CS 6x10 LB Markon Fresh Broccoli PR 0.00 12.50 125.00" = none := by
  decide

/-- C2 (amended). `parse(line)` returns null exactly when the Line
Classifier rejects (fewer than 8 tokens, or the first token is not six
digits), or the Category Locator finds no match, or one of the two
quantity tokens (positions 1 and 2) fails integer conversion; on every
other line it returns a record and never fails — the function is total
and missing sub-fields degrade to empty strings / zero values. -/
theorem parse_line_item_none_iff (line : String) :
    parse_line_item line = none ↔
      ((tokenize line).length < 8 ∨
       isSixDigits ((tokenize line).headD "") = false ∨
       findCategory (tokenize line) = none ∨
       parseIntPy ((tokenize line).getD 1 "") = none ∨
       parseIntPy ((tokenize line).getD 2 "") = none) := by
  unfold parse_line_item parse_tokens
  by_cases h1 : (tokenize line).length < 8
  · simp [h1]
  · rw [if_neg h1]
    by_cases h2 : isSixDigits ((tokenize line).headD "") = true
    · have h2x : isSixDigits ((tokenize line).head?.getD "") = true := by
        simpa [List.headD_eq_head?] using h2
      rw [if_neg (by simp [h2x])]
      cases h3 : findCategory (tokenize line) with
      | none => simp [h1, h2x, h3]
      | some ci =>
        cases h4 : parseIntPy ((tokenize line).getD 1 "") with
        | none => simp [h1, h2x, h3, h4]
        | some q1 =>
          cases h5 : parseIntPy ((tokenize line).getD 2 "") with
          | none => simp [h1, h2x, h3, h4, h5]
          | some q2 => simp [h1, h2x, h3, h4, h5]
    · rw [if_pos (by simpa using h2)]
      simp only [List.headD_eq_head?] at h2
      simp [h1, h2]

/-! ## C4: the category-locator window -/

/-- The descending scan finds nothing iff the step function is `none`
on the whole range. -/
theorem rangeDownAux_findSome?_eq_none {α : Type} (f : Int → Option α) :
    ∀ (n : Nat) (start : Int),
      (rangeDownAux n start).findSome? f = none ↔
        ∀ i : Int, start - (n : Int) < i → i ≤ start → f i = none := by
  intro n
  induction n with
  | zero =>
    intro start
    simp only [rangeDownAux, List.findSome?_nil, Nat.cast_zero]
    constructor
    · intro _ i h1 h2
      exact absurd h2 (by omega)
    · intro _
      trivial
  | succ n ih =>
    intro start
    rw [rangeDownAux, List.findSome?_cons]
    cases hf : f start with
    | some b =>
      constructor
      · intro h
        exact absurd h (by simp)
      · intro h
        have := h start (by omega) le_rfl
        rw [hf] at this
        cases this
    | none =>
      rw [ih (start - 1)]
      constructor
      · intro h i h1 h2
        by_cases hi : i = start
        · subst hi
          exact hf
        · exact h i (by omega) (by omega)
      · intro h i h1 h2
        exact h i (by omega) (by omega)

/-- The descending scan returns `some y` iff some point of the range
maps to `some y` and every later-scanned (higher) point maps to `none`. -/
theorem rangeDownAux_findSome?_eq_some {α : Type} (f : Int → Option α) :
    ∀ (n : Nat) (start : Int) (y : α),
      (rangeDownAux n start).findSome? f = some y ↔
        ∃ i : Int, start - (n : Int) < i ∧ i ≤ start ∧ f i = some y ∧
          ∀ j : Int, i < j → j ≤ start → f j = none := by
  intro n
  induction n with
  | zero =>
    intro start y
    simp only [rangeDownAux, List.findSome?_nil, Nat.cast_zero]
    constructor
    · intro h
      exact absurd h (by simp)
    · rintro ⟨i, h1, h2, -, -⟩
      exact absurd h2 (by omega)
  | succ n ih =>
    intro start y
    rw [rangeDownAux, List.findSome?_cons]
    cases hf : f start with
    | some b =>
      constructor
      · intro h
        refine ⟨start, by omega, le_rfl, ?_, ?_⟩
        · rw [hf]
          exact h
        · intro j hj1 hj2
          exact absurd hj2 (by omega)
      · rintro ⟨i, h1, h2, h3, h4⟩
        rcases lt_or_eq_of_le h2 with hlt | heq
        · have := h4 start hlt le_rfl
          rw [hf] at this
          cases this
        · subst heq
          rw [hf] at h3
          exact h3
    | none =>
      rw [ih (start - 1) y]
      constructor
      · rintro ⟨i, h1, h2, h3, h4⟩
        refine ⟨i, by omega, by omega, h3, ?_⟩
        intro j hj1 hj2
        by_cases hjs : j = start
        · subst hjs
          exact hf
        · exact h4 j hj1 (by omega)
      · rintro ⟨i, h1, h2, h3, h4⟩
        have hne : i ≠ start := by
          intro he
          subst he
          rw [hf] at h3
          cases h3
        refine ⟨i, by omega, by omega, h3, ?_⟩
        intro j hj1 hj2
        exact h4 j hj1 (by omega)

/-- Membership of a token index in the category scan window:
strictly above `max 4 (n - 10)` and at most `n - 4` (as integers). -/
def inWindow (n i : Nat) : Prop :=
  max 4 ((n : Int) - 10) < (i : Int) ∧ (i : Int) ≤ (n : Int) - 4

instance (n i : Nat) : Decidable (inWindow n i) := by
  unfold inWindow
  infer_instance

/-- C4. The Category Locator scans a bounded window of token indices —
strictly above `max 4 (n - 10)` and at most `n - 4`, the larger bound
gating the loop — descending from the far end (closest to the price
block): it returns `some (c, i)` exactly when index `i` lies in the
window, holds registry key `c`, and no higher index in the window holds
a registry key; it returns `none` exactly when no token in the window
is a registry key, and in that case the line is rejected entirely. -/
theorem findCategory_spec (parts : List String) :
    (∀ c i, findCategory parts = some (c, i) ↔
      (inWindow parts.length i ∧ c = parts.getD i "" ∧ isCat c = true ∧
        ∀ j, inWindow parts.length j → i < j → isCat (parts.getD j "") = false)) ∧
    (findCategory parts = none ↔
      ∀ j, inWindow parts.length j → isCat (parts.getD j "") = false) ∧
    (findCategory parts = none → ∀ raw, parse_tokens raw parts = none) := by
  refine ⟨?_, ?_, ?_⟩
  · intro c i
    unfold findCategory rangeDown
    rw [rangeDownAux_findSome?_eq_some]
    constructor
    · rintro ⟨iI, hb1, hb2, hf, hmax⟩
      by_cases hpos : 0 ≤ iI ∧ isCat (parts.getD iI.toNat "") = true
      · rw [if_pos hpos] at hf
        simp only [Option.some.injEq, Prod.mk.injEq] at hf
        obtain ⟨hc, hi⟩ := hf
        subst hc
        subst hi
        have hw : inWindow parts.length iI.toNat := by
          unfold inWindow
          omega
        refine ⟨hw, rfl, hpos.2, ?_⟩
        intro j hjw hij
        unfold inWindow at hjw
        have hfj := hmax (j : Int) (by omega) (by omega)
        by_cases hcj : isCat (parts.getD j "") = true
        · rw [if_pos ⟨Int.natCast_nonneg j, by rw [Int.toNat_natCast]; exact hcj⟩] at hfj
          cases hfj
        · simpa using hcj
      · rw [if_neg hpos] at hf
        cases hf
    · rintro ⟨hw, hc, hcat, hmax⟩
      unfold inWindow at hw
      have hcond : 0 ≤ (i : Int) ∧ isCat (parts.getD ((i : Int)).toNat "") = true := by
        refine ⟨Int.natCast_nonneg i, ?_⟩
        rw [Int.toNat_natCast, ← hc]
        exact hcat
      refine ⟨(i : Int), by omega, by omega, ?_, ?_⟩
      · rw [if_pos hcond, Int.toNat_natCast, ← hc]
      · intro j hj1 hj2
        have h0j : 0 ≤ j := by omega
        have hjw : inWindow parts.length j.toNat := by
          unfold inWindow
          omega
        have hcf := hmax j.toNat hjw (by omega)
        have hnc : ¬(0 ≤ j ∧ isCat (parts.getD j.toNat "") = true) := by
          rintro ⟨-, hh⟩
          rw [hcf] at hh
          exact absurd hh (by simp)
        rw [if_neg hnc]
  · unfold findCategory rangeDown
    rw [rangeDownAux_findSome?_eq_none]
    constructor
    · intro h j hjw
      unfold inWindow at hjw
      have hfj := h (j : Int) (by omega) (by omega)
      by_cases hcj : isCat (parts.getD j "") = true
      · rw [if_pos (by simpa using hcj)] at hfj
        cases hfj
      · simpa using hcj
    · intro h iI hb1 hb2
      by_cases h0 : 0 ≤ iI
      · have hjw : inWindow parts.length iI.toNat := by
          unfold inWindow
          omega
        have hcf := h iI.toNat hjw
        have hnc : ¬(0 ≤ iI ∧ isCat (parts.getD iI.toNat "") = true) := by
          rintro ⟨-, hh⟩
          rw [hcf] at hh
          exact absurd hh (by simp)
        rw [if_neg hnc]
      · rw [if_neg (fun hcontra => h0 hcontra.1)]
  · intro h raw
    unfold parse_tokens
    by_cases h1 : parts.length < 8
    · rw [if_pos h1]
    · rw [if_neg h1]
      by_cases h2 : (!isSixDigits (parts.headD "")) = true
      · rw [if_pos h2]
      · rw [if_neg h2]
        simp [h]

/-- Witness for C4: an eight-token accepted-shape line has an empty
scan window, the locator finds nothing, and the line is rejected. -/
theorem findCategory_spec_witness :
    findCategory (tokenize "123456 1 2 A B C D PR") = none ∧
    parse_tokens "123456 1 2 A B C D PR" (tokenize "123456 1 2 A B C D PR") = none :=
  ⟨by decide,
   (findCategory_spec (tokenize "123456 1 2 A B C D PR")).2.2 (by decide)
     "123456 1 2 A B C D PR"⟩

/-! ## C6: the field segmenter -/

/-- Appending one token to the middle region updates the pack boundary:
a matching final token moves the boundary past itself, a non-matching
one leaves the boundary of the prefix. -/
theorem packEnd_append (l : List String) (x : String) :
    packEnd (l ++ [x]) = if isPackTok x then l.length + 1 else packEnd l := by
  unfold packEnd
  rw [show (l ++ [x]).enum = l.enum ++ [(l.length, x)] by simp [List.enum_append, List.enumFrom]]
  rw [List.foldl_append]
  by_cases hx : isPackTok x
  · simp [hx]
  · simp [hx]

/-- The pack boundary is 0 when no token matches, and one past the last
matching token otherwise. -/
theorem packEnd_spec (middle : List String) :
    (packEnd middle = 0 ∧ ∀ j, j < middle.length → isPackTok (middle.getD j "") = false) ∨
    (∃ k, packEnd middle = k + 1 ∧ k < middle.length ∧ isPackTok (middle.getD k "") = true ∧
      ∀ j, k < j → j < middle.length → isPackTok (middle.getD j "") = false) := by
  induction middle using List.reverseRecOn with
  | nil =>
    left
    exact ⟨rfl, fun j h => absurd h (by simp)⟩
  | append_singleton l x ih =>
    rw [packEnd_append]
    by_cases hx : isPackTok x
    · right
      refine ⟨l.length, by rw [if_pos hx], by simp, ?_, ?_⟩
      · rw [List.getD_append_right l [x] "" l.length le_rfl]
        simpa using hx
      · intro j hj1 hj2
        simp only [List.length_append, List.length_singleton] at hj2
        omega
    · rw [if_neg hx]
      rcases ih with ⟨h0, hall⟩ | ⟨k, hk, hklen, hkP, hkmax⟩
      · left
        refine ⟨h0, ?_⟩
        intro j hj
        simp only [List.length_append, List.length_singleton] at hj
        rcases Nat.lt_or_ge j l.length with hjl | hjl
        · rw [List.getD_append l [x] "" j hjl]
          exact hall j hjl
        · have hje : j = l.length := by omega
          subst hje
          rw [List.getD_append_right l [x] "" l.length le_rfl]
          simpa using hx
      · right
        refine ⟨k, hk, by simp; omega, ?_, ?_⟩
        · rw [List.getD_append l [x] "" k hklen]
          exact hkP
        · intro j hj1 hj2
          simp only [List.length_append, List.length_singleton] at hj2
          rcases Nat.lt_or_ge j l.length with hjl | hjl
          · rw [List.getD_append l [x] "" j hjl]
            exact hkmax j hj1 hjl
          · have hje : j = l.length := by omega
            subst hje
            rw [List.getD_append_right l [x] "" l.length le_rfl]
            simpa using hx

/-- Unfolding of the Field Segmenter on a non-empty middle region. -/
theorem segmentMiddle_eq (middle : List String) (h : middle ≠ []) :
    segmentMiddle middle =
      (joinSpace (middle.take (packEnd middle)),
        match middle.drop (packEnd middle) with
        | [] => ("", "")
        | r0 :: rest =>
          if KNOWN_BRANDS.contains r0 || decide (r0.data.length < 8) then (r0, joinSpace rest)
          else ("", joinSpace (r0 :: rest))) := by
  simp only [segmentMiddle]
  rw [if_neg (by simpa [List.isEmpty_iff] using h)]
  cases hdrop : middle.drop (packEnd middle) with
  | nil => rfl
  | cons r0 rest =>
    split <;> [rfl; split <;> rfl]

/-- Generic bridge between `List.contains` and membership. -/
theorem list_contains_iff {α : Type} [BEq α] [LawfulBEq α] (l : List α) (a : α) :
    l.contains a = true ↔ a ∈ l := by
  simp

/-- Unfolding of the Field Segmenter when the remainder after the pack
boundary is non-empty. -/
theorem segmentMiddle_cons (middle : List String) (r0 : String) (rest : List String)
    (hm : middle ≠ []) (hdrop : middle.drop (packEnd middle) = r0 :: rest) :
    segmentMiddle middle =
      (joinSpace (middle.take (packEnd middle)),
        if (KNOWN_BRANDS.contains r0 || decide (r0.data.length < 8)) = true
        then (r0, joinSpace rest) else ("", joinSpace (r0 :: rest))) := by
  rw [segmentMiddle_eq middle hm, hdrop]

/-- C6. For every middle region (the tokens strictly between index 3
and the category index, as the final conjunct establishes for `parse`):
the pack boundary sits just after the last token that contains a
lowercase "x" or equals one of EA, LB, OZ, FOZ, CO, CS (0 when none
exists); `pack_size` is the space-join of the tokens up to the
boundary; an empty remainder leaves brand and description empty; a
non-empty remainder contributes its first token as `brand` exactly when
that token is a known brand or shorter than 8 characters (the rest
joined as `description`), and otherwise the whole remainder becomes
`description` with `brand` empty. -/
theorem segmentMiddle_field_rules (middle : List String) :
    (∀ p, isPackTok p = true ↔ ('x' ∈ p.data ∨ p ∈ ["EA", "LB", "OZ", "FOZ", "CO", "CS"])) ∧
    ((packEnd middle = 0 ∧ ∀ j, j < middle.length → isPackTok (middle.getD j "") = false) ∨
      (∃ k, packEnd middle = k + 1 ∧ k < middle.length ∧ isPackTok (middle.getD k "") = true ∧
        ∀ j, k < j → j < middle.length → isPackTok (middle.getD j "") = false)) ∧
    (segmentMiddle middle).1 = joinSpace (middle.take (packEnd middle)) ∧
    (middle.drop (packEnd middle) = [] →
      (segmentMiddle middle).2.1 = "" ∧ (segmentMiddle middle).2.2 = "") ∧
    (∀ r0 rest, middle.drop (packEnd middle) = r0 :: rest →
      ((r0 ∈ KNOWN_BRANDS ∨ r0.length < 8) →
        (segmentMiddle middle).2.1 = r0 ∧ (segmentMiddle middle).2.2 = joinSpace rest) ∧
      (¬(r0 ∈ KNOWN_BRANDS ∨ r0.length < 8) →
        (segmentMiddle middle).2.1 = "" ∧
          (segmentMiddle middle).2.2 = joinSpace (r0 :: rest))) ∧
    (∀ line it, parse_line_item line = some it →
      ∃ c i, findCategory (tokenize line) = some (c, i) ∧
        (it.pack_size, it.brand, it.description) =
          segmentMiddle (((tokenize line).take i).drop 4)) := by
  refine ⟨?_, packEnd_spec middle, ?_, ?_, ?_, ?_⟩
  · intro p
    unfold isPackTok
    rw [Bool.or_eq_true]
    exact or_congr (list_contains_iff p.data 'x') (list_contains_iff _ p)
  · by_cases hm : middle = []
    · subst hm
      rfl
    · rw [segmentMiddle_eq middle hm]
  · intro hdrop
    by_cases hm : middle = []
    · subst hm
      exact ⟨rfl, rfl⟩
    · rw [segmentMiddle_eq middle hm, hdrop]
      exact ⟨rfl, rfl⟩
  · intro r0 rest hdrop
    have hm : middle ≠ [] := by
      intro he
      subst he
      simp at hdrop
    have hiff : ((KNOWN_BRANDS.contains r0 || decide (r0.data.length < 8)) = true) ↔
        (r0 ∈ KNOWN_BRANDS ∨ r0.length < 8) := by
      rw [Bool.or_eq_true]
      exact or_congr (list_contains_iff _ r0) decide_eq_true_iff
    rw [segmentMiddle_cons middle r0 rest hm hdrop]
    constructor
    · intro hb
      rw [if_pos (hiff.mpr hb)]
      exact ⟨rfl, rfl⟩
    · intro hb
      rw [if_neg (fun hx => hb (hiff.mp hx))]
      exact ⟨rfl, rfl⟩
  · intro line it h
    unfold parse_line_item parse_tokens at h
    by_cases h1 : (tokenize line).length < 8
    · rw [if_pos h1] at h
      exact absurd h (by simp)
    · rw [if_neg h1] at h
      by_cases h2 : (!isSixDigits ((tokenize line).headD "")) = true
      · rw [if_pos h2] at h
        exact absurd h (by simp)
      · rw [if_neg h2] at h
        cases h3 : findCategory (tokenize line) with
        | none =>
          rw [h3] at h
          exact absurd h (by simp)
        | some ci =>
          obtain ⟨c, i⟩ := ci
          rw [h3] at h
          cases h4 : parseIntPy ((tokenize line).getD 1 "") with
          | none =>
            simp only [h4] at h
            exact absurd h (by simp)
          | some q1 =>
            cases h5 : parseIntPy ((tokenize line).getD 2 "") with
            | none =>
              simp only [h4, h5] at h
              exact absurd h (by simp)
            | some q2 =>
              simp only [h4, h5, Option.some.injEq] at h
              refine ⟨c, i, rfl, ?_⟩
              rw [← h]

/-- Witness for C6 at the middle region of the worked example:
boundary after "LB", pack size "6x10 LB", brand "Markon", description
"Fresh Broccoli". -/
theorem segmentMiddle_field_rules_witness :
    (segmentMiddle ["6x10", "LB", "Markon", "Fresh", "Broccoli"]).1 = "6x10 LB" ∧
    (segmentMiddle ["6x10", "LB", "Markon", "Fresh", "Broccoli"]).2.1 = "Markon" ∧
    (segmentMiddle ["6x10", "LB", "Markon", "Fresh", "Broccoli"]).2.2 = "Fresh Broccoli" ∧
    isPackTok "LB" = true := by
  have h5 := (segmentMiddle_field_rules ["6x10", "LB", "Markon", "Fresh", "Broccoli"]).2.2.2.2.1
    "Markon" ["Fresh", "Broccoli"] (by decide)
  obtain ⟨hb, hd⟩ := h5.1 (Or.inr (by decide))
  refine ⟨?_, hb, ?_, ?_⟩
  · rw [(segmentMiddle_field_rules ["6x10", "LB", "Markon", "Fresh", "Broccoli"]).2.2.1]
    decide
  · rw [hd]
    decide
  · exact ((segmentMiddle_field_rules ["6x10", "LB", "Markon", "Fresh", "Broccoli"]).1 "LB").mpr
      (Or.inr (by decide))

/-! ## C9: the ship-to location extractor -/

/-- Substring test (Python `needle in hay`) on char lists. -/
def listHasInfix (needle : List Char) : List Char → Bool
  | [] => needle.isEmpty
  | c :: rest => needle.isPrefixOf (c :: rest) || listHasInfix needle rest

/-- Substring test on strings. -/
def containsSub (hay needle : String) : Bool :=
  listHasInfix needle.data hay.data

/-- Character class `[A-Z\s]` of the location pattern. -/
def clsChar (c : Char) : Bool :=
  c.isUpper || c.isWhitespace

/-- Length of the institutional suffix when the text starts with one,
trying the alternatives in the pattern order SCHOOL, ELEMENTARY,
CENTER. -/
def suffixAt (cs : List Char) : Option Nat :=
  if ("SCHOOL".data).isPrefixOf cs then some 6
  else if ("ELEMENTARY".data).isPrefixOf cs then some 10
  else if ("CENTER".data).isPrefixOf cs then some 6
  else none

/-- Backtracking of the greedy `[A-Z\s]+` quantifier: try `k`
repetitions from the maximal run length down to 1, taking the first
that leaves an institutional suffix directly after it. -/
def tryK (c : Char) (rest : List Char) : Nat → Option (List Char)
  | 0 => none
  | k + 1 =>
    match suffixAt (rest.drop (k + 1)) with
    | some m => some (c :: rest.take (k + 1 + m))
    | none => tryK c rest k

/-- One attempt of `([A-Z][A-Z\s]+(?:SCHOOL|ELEMENTARY|CENTER))` at a
fixed start position. -/
def tryMatchAt : List Char → Option (List Char)
  | [] => none
  | c :: rest =>
    if c.isUpper then tryK c rest ((rest.takeWhile clsChar).length) else none

/-- Leftmost match of the location pattern (model of `re.search`). -/
def reSearchLocChars : List Char → Option String
  | [] => none
  | c :: rest =>
    match tryMatchAt (c :: rest) with
    | some m => some (String.mk m)
    | none => reSearchLocChars rest

/-- Search one line for the location pattern. -/
def reSearchLoc (s : String) : Option String :=
  reSearchLocChars s.data

/-- One step of the location loop of `parse_invoice`: a line containing
"Ship To:" looks up the first index of its own text (Python
`lines.index(line)`) and scans `lines[idx : min(idx+5, len(lines))]`
for the first pattern match, overwriting the accumulator on success. -/
def shipToStep (lines : List String) (acc : Option String) (line : String) : Option String :=
  if containsSub line "Ship To:" then
    match ((lines.drop (lines.findIdx (fun l2 => l2 == line))).take 5).findSome? reSearchLoc with
    | some loc => some (pyStrip loc)
    | none => acc
  else acc

/-- Location field of the Document Metadata Extractor over the first
page's lines. -/
def extractLocation (lines : List String) : Option String :=
  lines.foldl (shipToStep lines) none

/-- Lines without the anchor never change the accumulator. -/
theorem foldl_shipToStep_skip (lines : List String) (L : List String) (acc : Option String)
    (h : ∀ l ∈ L, containsSub l "Ship To:" = false) :
    L.foldl (shipToStep lines) acc = acc := by
  induction L generalizing acc with
  | nil => rfl
  | cons x xs ih =>
    rw [List.foldl_cons]
    have hx : shipToStep lines acc x = acc := by
      unfold shipToStep
      rw [h x (List.mem_cons_self x xs)]
      rfl
    rw [hx]
    exact ih acc (fun l hl => h l (List.mem_cons_of_mem x hl))

/-- The first index whose element satisfies the predicate, when the
list splits as a clean prefix, an anchor, and a tail. -/
theorem findIdx_append_anchor (A B : List String) (anchor : String) (p : String → Bool)
    (hA : ∀ l ∈ A, p l = false) (hp : p anchor = true) :
    (A ++ anchor :: B).findIdx p = A.length := by
  induction A with
  | nil =>
    simp [List.findIdx_cons, hp]
  | cons x xs ih =>
    rw [List.cons_append, List.findIdx_cons, hA x (List.mem_cons_self x xs)]
    rw [ih (fun l hl => hA l (List.mem_cons_of_mem x hl))]
    rfl

/-- Counterexample for C9: with the single first-page line
"Ship To: ACME SCHOOL" the window of the next up-to-5 lines after the
anchor is empty, yet a location is set — the scan in the code starts at
the anchor line itself, not after it. -/
theorem extractLocation_after_cex :
    containsSub "Ship To: ACME SCHOOL" "Ship To:" = true ∧
    (["Ship To: ACME SCHOOL"].drop (0 + 1)).take 5 = ([] : List String) ∧
    extractLocation ["Ship To: ACME SCHOOL"] = some "ACME SCHOOL" := by
  decide

/-- C9 (amended). For a first page whose unique "Ship To:" anchor sits
at index `idx`, the extractor scans the window of up to 5 lines
starting at the anchor line itself (the anchor plus the next up-to-4
lines), sets location to the first pattern match in that window trimmed
of surrounding whitespace, and leaves location unset when no line in
the window matches. -/
theorem extractLocation_window (lines : List String) (idx : Nat) (hidx : idx < lines.length)
    (hanchor : containsSub (lines.getD idx "") "Ship To:" = true)
    (huniq : ∀ j, j < lines.length → j ≠ idx → containsSub (lines.getD j "") "Ship To:" = false) :
    extractLocation lines = (((lines.drop idx).take 5).findSome? reSearchLoc).map pyStrip := by
  have hgetD : lines.getD idx "" = lines[idx] := List.getD_eq_getElem lines "" hidx
  have hanchorElem : containsSub lines[idx] "Ship To:" = true := by
    rw [← hgetD]
    exact hanchor
  have hsplit : lines = lines.take idx ++ lines[idx] :: lines.drop (idx + 1) := by
    conv_lhs => rw [← List.take_append_drop idx lines]
    rw [List.drop_eq_getElem_cons hidx]
  have hAfalse : ∀ l ∈ lines.take idx, containsSub l "Ship To:" = false := by
    intro l hl
    obtain ⟨j, hj, hjl⟩ := List.getElem_of_mem hl
    have hj' : j < idx := by
      simp [List.length_take] at hj
      omega
    have hjlen : j < lines.length := by omega
    have hje : l = lines[j] := by
      rw [← hjl, List.getElem_take]
    have := huniq j hjlen (by omega)
    rw [List.getD_eq_getElem lines "" hjlen] at this
    rw [hje]
    exact this
  have hBfalse : ∀ l ∈ lines.drop (idx + 1), containsSub l "Ship To:" = false := by
    intro l hl
    obtain ⟨j, hj, hjl⟩ := List.getElem_of_mem hl
    have hjlen : idx + 1 + j < lines.length := by
      simp [List.length_drop] at hj
      omega
    have hje : l = lines[idx + 1 + j] := by
      rw [← hjl, List.getElem_drop]
    have := huniq (idx + 1 + j) hjlen (by omega)
    rw [List.getD_eq_getElem lines "" hjlen] at this
    rw [hje]
    exact this
  have hAneq : ∀ l ∈ lines.take idx, (l == lines[idx]) = false := by
    intro l hl
    cases hb : (l == lines[idx]) with
    | false => rfl
    | true =>
      have hle : l = lines[idx] := eq_of_beq hb
      have hf := hAfalse l hl
      rw [hle, hanchorElem] at hf
      cases hf
  have hfindIdx : lines.findIdx (fun l2 => l2 == lines[idx]) = idx := by
    rw [show lines.findIdx (fun l2 => l2 == lines[idx]) =
        (lines.take idx ++ lines[idx] :: lines.drop (idx + 1)).findIdx
          (fun l2 => l2 == lines[idx]) from by rw [← hsplit]]
    rw [findIdx_append_anchor (lines.take idx) (lines.drop (idx + 1)) lines[idx] _ hAneq
      (by simp)]
    simp [List.length_take]
    omega
  have hstep : shipToStep lines none lines[idx] =
      (((lines.drop idx).take 5).findSome? reSearchLoc).map pyStrip := by
    unfold shipToStep
    rw [if_pos hanchorElem, hfindIdx]
    cases hw : ((lines.drop idx).take 5).findSome? reSearchLoc with
    | none => rfl
    | some loc => rfl
  unfold extractLocation
  rw [show (lines.foldl (shipToStep lines) none) =
      ((lines.take idx ++ lines[idx] :: lines.drop (idx + 1)).foldl (shipToStep lines) none) from
    by rw [← hsplit]]
  rw [List.foldl_append, foldl_shipToStep_skip lines (lines.take idx) none hAfalse,
    List.foldl_cons, hstep]
  exact foldl_shipToStep_skip lines (lines.drop (idx + 1)) _ hBfalse

/-- Witness for C9 (amended): anchor at index 1 of three lines, match
found two lines later inside the window. -/
theorem extractLocation_window_witness :
    extractLocation ["header", "Ship To:", "LINCOLN ELEMENTARY"] = some "LINCOLN ELEMENTARY" :=
  (extractLocation_window ["header", "Ship To:", "LINCOLN ELEMENTARY"] 1 (by decide) (by decide)
    (by decide)).trans (by decide)

/-! ## C7: batch-orchestrator error isolation -/

/-- Success test for an `Except` outcome. -/
def isOkE {ε α : Type} : Except ε α → Bool
  | Except.ok _ => true
  | Except.error _ => false

/-- Per-item persistence loop of `batch_process_invoices`: every item
is attempted; a failing upsert/insert is caught, recorded with the item
code, and the loop continues with the next item. -/
def processItems (persist : LineItem → Except String Unit) (items : List LineItem) :
    List (String × Option String) :=
  items.map (fun it => (it.item_code,
    match persist it with
    | Except.ok _ => none
    | Except.error e => some e))

/-- Batch loop of `batch_process_invoices`: documents are processed in
order; a document whose parse raises is recorded as a failure entry and
the loop continues; a parsed document's items are persisted one by
one.  The per-document parse outcome (the `parse_invoice` call and the
`add_invoice` call, both inside the outer `try`) is modelled as data
carried with each document. -/
def batchProcess (persist : LineItem → Except String Unit)
    (docs : List (String × Except String (List LineItem))) :
    List (String × Except String (List (String × Option String))) :=
  docs.map (fun d => (d.1,
    match d.2 with
    | Except.error e => Except.error e
    | Except.ok items => Except.ok (processItems persist items)))

/-- C7. Batch isolation: in a batch where document `K`'s processing
fails and every other document parses, the report has one entry per
document, entry `K` is the single failure entry (carrying document
`K`'s identifier), the other `N - 1` entries are successes, and each
success entry is exactly what that document yields on its own —
unaffected by `K`.  Moreover a per-item persistence failure is recorded
in place and never drops or aborts the containing document's item list. -/
theorem batchProcess_isolation :
    (∀ (persist : LineItem → Except String Unit)
        (docs : List (String × Except String (List LineItem)))
        (K : Nat) (e : String) (items : Nat → List LineItem),
      K < docs.length →
      (docs.getD K ("", Except.error "")).2 = Except.error e →
      (∀ j, j < docs.length → j ≠ K →
        (docs.getD j ("", Except.error "")).2 = Except.ok (items j)) →
      (batchProcess persist docs).length = docs.length ∧
      (batchProcess persist docs).getD K ("", Except.error "") =
        ((docs.getD K ("", Except.error "")).1, Except.error e) ∧
      ((batchProcess persist docs).filter (fun r => isOkE r.2)).length = docs.length - 1 ∧
      (∀ j, j < docs.length → j ≠ K →
        (batchProcess persist docs).getD j ("", Except.error "") =
          ((docs.getD j ("", Except.error "")).1,
            Except.ok (processItems persist (items j))))) ∧
    (∀ (persist : LineItem → Except String Unit) (items : List LineItem) (dflt : LineItem),
      (processItems persist items).length = items.length ∧
      ∀ i, i < items.length →
        (processItems persist items).getD i ("", none) =
          ((items.getD i dflt).item_code,
            match persist (items.getD i dflt) with
            | Except.ok _ => none
            | Except.error e2 => some e2)) := by
  constructor
  · intro persist docs K e items hK hKe hok
    have hlen : (batchProcess persist docs).length = docs.length := by
      unfold batchProcess
      exact List.length_map docs _
    refine ⟨hlen, ?_, ?_, ?_⟩
    · rw [List.getD_eq_getElem docs _ hK] at hKe
      rw [List.getD_eq_getElem _ _ (by rw [hlen]; exact hK)]
      unfold batchProcess
      simp only [List.getElem_map]
      rw [hKe, List.getD_eq_getElem docs _ hK]
    · unfold batchProcess
      rw [List.filter_map]
      rw [List.length_map]
      have hsplit : docs = docs.take K ++ docs[K] :: docs.drop (K + 1) := by
        conv_lhs => rw [← List.take_append_drop K docs]
        rw [List.drop_eq_getElem_cons hK]
      rw [show docs.filter ((fun r => isOkE r.2) ∘ (fun d => (d.1,
            match d.2 with
            | Except.error e2 => Except.error e2
            | Except.ok its => Except.ok (processItems persist its)))) =
          (docs.take K ++ docs[K] :: docs.drop (K + 1)).filter ((fun r => isOkE r.2) ∘ (fun d => (d.1,
            match d.2 with
            | Except.error e2 => Except.error e2
            | Except.ok its => Except.ok (processItems persist its)))) from by rw [← hsplit]]
      rw [List.filter_append, List.filter_cons]
      have hQK : ((fun r => isOkE r.2) ∘ (fun d => (d.1,
          match d.2 with
          | Except.error e2 => Except.error e2
          | Except.ok its => Except.ok (processItems persist its)))) docs[K] = false := by
        rw [List.getD_eq_getElem docs _ hK] at hKe
        simp only [Function.comp_apply, hKe]
        rfl
      rw [hQK]
      have hQtake : ∀ d ∈ docs.take K, ((fun r => isOkE r.2) ∘ (fun d2 => (d2.1,
          match d2.2 with
          | Except.error e2 => Except.error e2
          | Except.ok its => Except.ok (processItems persist its)))) d = true := by
        intro d hd
        obtain ⟨j, hj, hjd⟩ := List.getElem_of_mem hd
        have hj' : j < K := by
          simp [List.length_take] at hj
          omega
        have hjlen : j < docs.length := by omega
        have hde : d = docs[j] := by
          rw [← hjd, List.getElem_take]
        have hjok := hok j hjlen (by omega)
        rw [List.getD_eq_getElem docs _ hjlen] at hjok
        rw [hde]
        simp only [Function.comp_apply, hjok]
        rfl
      have hQdrop : ∀ d ∈ docs.drop (K + 1), ((fun r => isOkE r.2) ∘ (fun d2 => (d2.1,
          match d2.2 with
          | Except.error e2 => Except.error e2
          | Except.ok its => Except.ok (processItems persist its)))) d = true := by
        intro d hd
        obtain ⟨j, hj, hjd⟩ := List.getElem_of_mem hd
        have hjlen : K + 1 + j < docs.length := by
          simp [List.length_drop] at hj
          omega
        have hde : d = docs[K + 1 + j] := by
          rw [← hjd, List.getElem_drop]
        have hjok := hok (K + 1 + j) hjlen (by omega)
        rw [List.getD_eq_getElem docs _ hjlen] at hjok
        rw [hde]
        simp only [Function.comp_apply, hjok]
        rfl
      rw [List.filter_eq_self.mpr hQtake, List.filter_eq_self.mpr hQdrop]
      simp only [if_neg (by simp : ¬(false = true))]
      rw [List.length_append, List.length_take, List.length_drop]
      omega
    · intro j hj hne
      have hjok := hok j hj hne
      rw [List.getD_eq_getElem docs _ hj] at hjok
      rw [List.getD_eq_getElem _ _ (by rw [hlen]; exact hj)]
      unfold batchProcess
      simp only [List.getElem_map]
      rw [hjok, List.getD_eq_getElem docs _ hj]
  · intro persist items dflt
    have hlen : (processItems persist items).length = items.length := by
      unfold processItems
      exact List.length_map items _
    refine ⟨hlen, ?_⟩
    intro i hi
    rw [List.getD_eq_getElem _ _ (by rw [hlen]; exact hi)]
    unfold processItems
    simp only [List.getElem_map]
    rw [List.getD_eq_getElem items _ hi]

deriving instance DecidableEq for Except

/-- A concrete parsed line item used by the concrete witnesses. -/
def sampleItem : LineItem :=
  { item_code := "111111", quantity_ordered := 2, quantity_shipped := 2, unit := "CS",
    pack_size := "6x10 LB", brand := "Markon", description := "Fresh Broccoli",
    category_code := "PR", category_name := "Produce", invoice_value := 0,
    unit_price := 500, extended_price := 1000, raw_line := "" }

/-- Witness for C7: a three-document batch whose middle document fails
still yields two success entries. -/
theorem batchProcess_isolation_witness :
    ((batchProcess (fun _ => Except.ok ())
        [("a.pdf", Except.ok [sampleItem]), ("b.pdf", Except.error "bad"),
         ("c.pdf", Except.ok [])]).filter (fun r => isOkE r.2)).length = 2 :=
  (batchProcess_isolation.1 (fun _ => Except.ok ())
      [("a.pdf", Except.ok [sampleItem]), ("b.pdf", Except.error "bad"), ("c.pdf", Except.ok [])]
      1 "bad" (fun j => if j = 0 then [sampleItem] else [])
      (by decide) (by decide) (by decide)).2.2.1

/-! ## C8 and C10: the product-catalog upsert -/

/-- A row of the `gfs_products` table (the columns `upsert_product`
reads or writes; `price_history` is the decoded JSON list, each entry a
(date, price) pair, prices in cents). -/
structure Product where
  gfs_item_code : String
  description : String
  brand : String
  pack_size : String
  category_code : String
  category_name : String
  unit_price : Nat
  price_history : List (String × Nat)
  first_seen : String
  last_seen : String
  order_count : Nat
deriving Repr, DecidableEq

/-- Apply a function to the first row matching an item code (the
`UPDATE ... WHERE id = ?` on the row found by the `SELECT`). -/
def updateFirst (code : String) (f : Product → Product) : List Product → List Product
  | [] => []
  | p :: ps => if p.gfs_item_code = code then f p :: ps else p :: updateFirst code f ps

/-- The update branch of `upsert_product`: bump order_count, set
unit_price and last_seen, and append a price-history entry when the
history is empty or its last price differs from the new unit price. -/
def applyUpsert (today : String) (item : LineItem) (p : Product) : Product :=
  let ph := if p.price_history = [] ∨ (p.price_history.getLast?.map Prod.snd) ≠ some item.unit_price
            then p.price_history ++ [(today, item.unit_price)] else p.price_history
  { p with unit_price := item.unit_price, price_history := ph, last_seen := today,
           order_count := p.order_count + 1 }

/-- The insert branch of `upsert_product`. -/
def newProduct (today : String) (item : LineItem) : Product :=
  { gfs_item_code := item.item_code, description := item.description, brand := item.brand,
    pack_size := item.pack_size, category_code := item.category_code,
    category_name := item.category_name, unit_price := item.unit_price,
    price_history := [(today, item.unit_price)], first_seen := today, last_seen := today,
    order_count := 1 }

/-- `DatabaseManager.upsert_product`: update the existing row with this
item code if one exists, otherwise insert a new row. -/
def upsert_product (today : String) (item : LineItem) (cat : List Product) : List Product :=
  if (cat.find? (fun p => p.gfs_item_code == item.item_code)).isSome then
    updateFirst item.item_code (applyUpsert today item) cat
  else cat ++ [newProduct today item]

/-- Updating the first matching row keeps it the first match when the
update preserves the item code. -/
theorem find?_updateFirst (code : String) (f : Product → Product)
    (hf : ∀ p, (f p).gfs_item_code = p.gfs_item_code) (cat : List Product) (r : Product)
    (h : cat.find? (fun p => p.gfs_item_code == code) = some r) :
    (updateFirst code f cat).find? (fun p => p.gfs_item_code == code) = some (f r) := by
  induction cat with
  | nil => cases h
  | cons p ps ih =>
    by_cases hp : p.gfs_item_code = code
    · rw [List.find?_cons_of_pos _ (by simp [hp])] at h
      obtain rfl : p = r := by injection h
      unfold updateFirst
      rw [if_pos hp]
      rw [List.find?_cons_of_pos _ (by simp [hf p, hp])]
    · rw [List.find?_cons_of_neg _ (by simp [hp])] at h
      unfold updateFirst
      rw [if_neg hp]
      rw [List.find?_cons_of_neg _ (by simp [hp])]
      exact ih h

/-- `updateFirst` never changes the number of rows. -/
theorem length_updateFirst (code : String) (f : Product → Product) :
    ∀ cat : List Product, (updateFirst code f cat).length = cat.length := by
  intro cat
  induction cat with
  | nil => rfl
  | cons p ps ih =>
    unfold updateFirst
    by_cases hp : p.gfs_item_code = code
    · rw [if_pos hp]
      simp
    · rw [if_neg hp]
      simpa using ih

/-- After any upsert the item code is present and its row's price
history is non-empty with the upserted unit price as its last entry. -/
theorem upsert_present (today : String) (item : LineItem) (cat : List Product) :
    ∃ r, (upsert_product today item cat).find?
        (fun p => p.gfs_item_code == item.item_code) = some r ∧
      r.price_history ≠ [] ∧
      r.price_history.getLast?.map Prod.snd = some item.unit_price := by
  unfold upsert_product
  cases hf : cat.find? (fun p => p.gfs_item_code == item.item_code) with
  | some r0 =>
    rw [if_pos (by rfl)]
    refine ⟨applyUpsert today item r0,
      find?_updateFirst item.item_code (applyUpsert today item) (fun p => rfl) cat r0 hf,
      ?_, ?_⟩
    · unfold applyUpsert
      by_cases hc : r0.price_history = [] ∨
          (r0.price_history.getLast?.map Prod.snd) ≠ some item.unit_price
      · rw [if_pos hc]
        simp
      · rw [if_neg hc]
        push_neg at hc
        exact hc.1
    · unfold applyUpsert
      by_cases hc : r0.price_history = [] ∨
          (r0.price_history.getLast?.map Prod.snd) ≠ some item.unit_price
      · rw [if_pos hc]
        simp [List.getLast?_concat]
      · rw [if_neg hc]
        push_neg at hc
        exact hc.2
  | none =>
    rw [if_neg (by simp)]
    refine ⟨newProduct today item, ?_, by simp [newProduct], by simp [newProduct]⟩
    rw [List.find?_append, hf, Option.none_or]
    rw [List.find?_cons_of_pos _ (by simp [newProduct])]

/-- When the item code is already present, `upsert_product` takes the
update branch. -/
theorem upsert_found (today : String) (item : LineItem) (cat : List Product) (r : Product)
    (h : cat.find? (fun p => p.gfs_item_code == item.item_code) = some r) :
    upsert_product today item cat =
      updateFirst item.item_code (applyUpsert today item) cat := by
  unfold upsert_product
  rw [h]
  rfl

/-- C8. Idempotence and the price-history append law of the catalog
upsert: two calls with the same item code and the same unit price leave
the row count unchanged while incrementing the row's order_count, and
the second call does not grow the price history; a call whose unit
price differs from the last recorded price of an existing row appends
exactly one history entry dated with the call time. -/
theorem upsert_product_laws :
    (∀ (cat : List Product) (it1 it2 : LineItem) (t1 t2 : String),
      it1.item_code = it2.item_code → it1.unit_price = it2.unit_price →
      ∃ r1 r2,
        (upsert_product t1 it1 cat).find?
          (fun p => p.gfs_item_code == it2.item_code) = some r1 ∧
        (upsert_product t2 it2 (upsert_product t1 it1 cat)).find?
          (fun p => p.gfs_item_code == it2.item_code) = some r2 ∧
        r2.order_count = r1.order_count + 1 ∧
        r2.price_history.length = r1.price_history.length ∧
        (upsert_product t2 it2 (upsert_product t1 it1 cat)).length =
          (upsert_product t1 it1 cat).length) ∧
    (∀ (cat : List Product) (it : LineItem) (t : String) (r : Product) (d : String) (p0 : Nat),
      cat.find? (fun p => p.gfs_item_code == it.item_code) = some r →
      r.price_history.getLast? = some (d, p0) → p0 ≠ it.unit_price →
      ∃ r2,
        (upsert_product t it cat).find?
          (fun p => p.gfs_item_code == it.item_code) = some r2 ∧
        r2.price_history = r.price_history ++ [(t, it.unit_price)]) := by
  constructor
  · intro cat it1 it2 t1 t2 hcode hprice
    obtain ⟨r1, hr1, hne, hlast⟩ := upsert_present t1 it1 cat
    rw [hcode] at hr1
    have hu2 : upsert_product t2 it2 (upsert_product t1 it1 cat) =
        updateFirst it2.item_code (applyUpsert t2 it2) (upsert_product t1 it1 cat) :=
      upsert_found t2 it2 _ r1 hr1
    have hr2 := find?_updateFirst it2.item_code (applyUpsert t2 it2) (fun p => rfl) _ r1 hr1
    refine ⟨r1, applyUpsert t2 it2 r1, hr1, by rw [hu2]; exact hr2, rfl, ?_, ?_⟩
    · have hcond : ¬(r1.price_history = [] ∨
          (r1.price_history.getLast?.map Prod.snd) ≠ some it2.unit_price) := by
        push_neg
        refine ⟨hne, ?_⟩
        rw [← hprice]
        exact hlast
      show (applyUpsert t2 it2 r1).price_history.length = r1.price_history.length
      simp only [applyUpsert]
      rw [if_neg hcond]
    · rw [hu2, length_updateFirst]
  · intro cat it t r d p0 hfind hlastEq hneq
    have hu : upsert_product t it cat = updateFirst it.item_code (applyUpsert t it) cat :=
      upsert_found t it cat r hfind
    have hr2 := find?_updateFirst it.item_code (applyUpsert t it) (fun p => rfl) cat r hfind
    refine ⟨applyUpsert t it r, by rw [hu]; exact hr2, ?_⟩
    have hcond : r.price_history = [] ∨
        (r.price_history.getLast?.map Prod.snd) ≠ some it.unit_price := by
      right
      rw [hlastEq]
      simpa using hneq
    show (applyUpsert t it r).price_history = r.price_history ++ [(t, it.unit_price)]
    simp only [applyUpsert]
    rw [if_pos hcond]

/-- A concrete existing catalog row used by the concrete witnesses. -/
def sampleProduct : Product :=
  { gfs_item_code := "111111", description := "Old desc", brand := "OldBrand",
    pack_size := "1x1", category_code := "GR", category_name := "Grocery",
    unit_price := 100, price_history := [("2024-01-01", 100)],
    first_seen := "2024-01-01", last_seen := "2024-01-01", order_count := 3 }

/-- Witness for C8: both laws at concrete inputs — a double upsert of
the same item into an empty catalog, and a price-changing upsert onto
an existing row. -/
theorem upsert_product_laws_witness :
    (∃ r1 r2,
      (upsert_product "2024-02-01" sampleItem []).find?
        (fun p => p.gfs_item_code == sampleItem.item_code) = some r1 ∧
      (upsert_product "2024-02-02" sampleItem
          (upsert_product "2024-02-01" sampleItem [])).find?
        (fun p => p.gfs_item_code == sampleItem.item_code) = some r2 ∧
      r2.order_count = r1.order_count + 1 ∧
      r2.price_history.length = r1.price_history.length ∧
      (upsert_product "2024-02-02" sampleItem
          (upsert_product "2024-02-01" sampleItem [])).length =
        (upsert_product "2024-02-01" sampleItem []).length) ∧
    (∃ r2,
      (upsert_product "2024-02-03" sampleItem [sampleProduct]).find?
        (fun p => p.gfs_item_code == sampleItem.item_code) = some r2 ∧
      r2.price_history = sampleProduct.price_history ++ [("2024-02-03", sampleItem.unit_price)]) :=
  ⟨upsert_product_laws.1 [] sampleItem sampleItem "2024-02-01" "2024-02-02" rfl rfl,
   upsert_product_laws.2 [sampleProduct] sampleItem "2024-02-03" sampleProduct
     "2024-01-01" 100 (by decide) (by decide) (by decide)⟩

/-- C10. Frame property of the upsert on an existing row: the stored
row keeps its identifying and descriptive fields (item code,
description, brand, pack size, category code and name, first_seen)
unchanged — whatever values the new call supplies — while exactly
unit_price, price_history, last_seen and order_count are refreshed. -/
theorem upsert_product_frame (cat : List Product) (it : LineItem) (t : String) (r : Product)
    (h : cat.find? (fun p => p.gfs_item_code == it.item_code) = some r) :
    ∃ r2,
      (upsert_product t it cat).find? (fun p => p.gfs_item_code == it.item_code) = some r2 ∧
      r2.gfs_item_code = r.gfs_item_code ∧
      r2.description = r.description ∧
      r2.brand = r.brand ∧
      r2.pack_size = r.pack_size ∧
      r2.category_code = r.category_code ∧
      r2.category_name = r.category_name ∧
      r2.first_seen = r.first_seen ∧
      r2.unit_price = it.unit_price ∧
      r2.last_seen = t ∧
      r2.order_count = r.order_count + 1 := by
  refine ⟨applyUpsert t it r, ?_, rfl, rfl, rfl, rfl, rfl, rfl, rfl, rfl, rfl, rfl⟩
  rw [upsert_found t it cat r h]
  exact find?_updateFirst it.item_code (applyUpsert t it) (fun p => rfl) cat r h

/-- Witness for C10: an upsert with entirely different descriptive
fields onto the concrete existing row. -/
theorem upsert_product_frame_witness :
    ∃ r2,
      (upsert_product "2024-02-03" sampleItem [sampleProduct]).find?
        (fun p => p.gfs_item_code == sampleItem.item_code) = some r2 ∧
      r2.gfs_item_code = sampleProduct.gfs_item_code ∧
      r2.description = sampleProduct.description ∧
      r2.brand = sampleProduct.brand ∧
      r2.pack_size = sampleProduct.pack_size ∧
      r2.category_code = sampleProduct.category_code ∧
      r2.category_name = sampleProduct.category_name ∧
      r2.first_seen = sampleProduct.first_seen ∧
      r2.unit_price = sampleItem.unit_price ∧
      r2.last_seen = "2024-02-03" ∧
      r2.order_count = sampleProduct.order_count + 1 :=
  upsert_product_frame [sampleProduct] sampleItem "2024-02-03" sampleProduct (by decide)
